import Mathlib

/-!
Shallow embedding of the TubbySnowPlow reinsurance core
(src/tubbysnowplow.py): the CSV loss-sample parse, the layer transform,
the summary risk metrics, and the exceedance (EP) curve construction.

Real values are modelled by the rationals.  Every floating-point division
in the source that can hit a zero denominator is modelled by `qdiv?`,
whose `none` value stands for the non-finite float (inf or nan) that
numpy produces there (numpy emits a runtime warning and keeps going; it
does not raise).  Standard deviation and coefficient of variation involve
a square root, which is irrational in general; they are embedded through
their squares (`std_dev_sq?`, `cv_sq?`).  Since squaring is injective on
the non-negative reals and both reported quantities are non-negative,
every equality, ordering or definedness claim about them is settled by
the corresponding claim about the squares.
-/

namespace TubbySnowPlow

/-- Model of a floating-point division from the source.  The quotient is
finite exactly when the divisor is nonzero; `none` stands for the
non-finite result (inf or nan) of a zero divisor, which numpy surfaces
as a warning plus a non-finite value, never as a raised exception. -/
def qdiv? (a b : ℚ) : Option ℚ := if b = 0 then none else some (a / b)

/-! ## LossSampleProvider: the CSV parse (source lines 30-37)

A parsed first-column cell of the uploaded CSV is either missing (an
empty field, which pandas turns into NaN), a numeric value, or a
non-numeric token (which pandas keeps as a string in an object-dtype
column). -/

/-- One first-column cell of the uploaded CSV, as pandas read_csv with
header=None delivers it. -/
inductive Cell where
  | missing : Cell
  | num : ℚ → Cell
  | non_numeric : String → Cell
deriving DecidableEq

/-- Whether a cell is a missing value (pandas NaN). -/
def is_missing : Cell → Bool := fun c =>
  match c with
  | Cell.missing => true
  | _ => false

/-- Model of data.iloc[:, 0].dropna() at source line 35: dropna removes
exactly the missing (NaN) cells and keeps everything else, including
non-numeric string cells. -/
def dropna (rows : List Cell) : List Cell := rows.filter fun c => !(is_missing c)

/-- Model of the try/except around pd.read_csv at lines 33-37: a file
that cannot be parsed at all (`none`) is caught and reported through
st.error, so losses stays unset and nothing downstream runs; a parsed
file yields the first column with missing cells dropped. -/
def parse_file? (file : Option (List Cell)) : Except String (List Cell) :=
  match file with
  | none => Except.error "Failed to process file"
  | some rows => Except.ok (dropna rows)

/-- Numeric content of a cell, when it has one. -/
def cell_num? : Cell → Option ℚ := fun c =>
  match c with
  | Cell.num q => some q
  | _ => none

/-- Model of handing the retained column to the numpy arithmetic at
source line 49.  If every retained cell is numeric the column is a float
array and the arithmetic proceeds on those values; if any retained cell
is a non-numeric string the column has object dtype and the subtraction
losses - deductible raises an uncaught TypeError (`none`). -/
def as_numeric_array? (rows : List Cell) : Option (List ℚ) :=
  if rows.all fun c => (cell_num? c).isSome then some (rows.filterMap cell_num?)
  else none

/-! ## LayerTransform (source lines 49-50) -/

/-- Model of gross_losses = np.maximum(losses - deductible, 0). -/
def gross_losses (losses : List ℚ) (deductible : ℚ) : List ℚ :=
  losses.map fun x => max (x - deductible) 0

/-- Model of layer_losses = np.clip(gross_losses - attachment, 0, limit),
where np.clip(v, 0, limit) = min (max v 0) limit. -/
def layer_losses (losses : List ℚ) (deductible attachment limit : ℚ) : List ℚ :=
  (gross_losses losses deductible).map fun g => min (max (g - attachment) 0) limit

/-! ## RiskMetricsEngine (source lines 51-61) -/

/-- Model of el = layer_losses.mean(): the sum divided by the length
(np.mean of an empty array is the non-finite 0/0). -/
def el? (l : List ℚ) : Option ℚ := qdiv? l.sum l.length

/-- Square of std_dev = layer_losses.std(): numpy default ddof=0, the
population standard deviation, i.e. the mean of the squared deviations
from the mean (N denominator). -/
def std_dev_sq? (l : List ℚ) : Option ℚ :=
  (el? l).bind fun m => qdiv? (l.map fun x => (x - m) ^ 2).sum l.length

/-- Square of the estimator the spec's words recommend instead: sample
standard deviation with N - 1 denominator.  This definition follows the
spec text, not the source, and exists to be compared with
std_dev_sq?. -/
def spec_sample_std_dev_sq? (l : List ℚ) : Option ℚ :=
  (el? l).bind fun m => qdiv? (l.map fun x => (x - m) ^ 2).sum ((l.length : ℚ) - 1)

/-- Square of cv = std_dev / el if el != 0 else np.nan (source line 53). -/
def cv_sq? (l : List ℚ) : Option ℚ :=
  match el? l with
  | some e => if e = 0 then none else (std_dev_sq? l).map fun s2 => s2 / e ^ 2
  | none => none

/-- Model of payout_probability = (layer_losses > 0).sum() / len(layer_losses)
(source line 54). -/
def payout_probability? (l : List ℚ) : Option ℚ :=
  qdiv? ((l.countP fun x => decide (0 < x) : ℕ) : ℚ) l.length

/-- Model of el_ratio = (el / limit) * 100 (source line 55). -/
def el_ratio? (l : List ℚ) (limit : ℚ) : Option ℚ :=
  (el? l).bind fun e => (qdiv? e limit).map fun r => r * 100

/-- Model of exposure_value = limit + attachment (source line 56). -/
def exposure_value (limit attachment : ℚ) : ℚ := limit + attachment

/-- Model of loss_cost = (el / exposure_value) * 10000 (source line 57). -/
def loss_cost? (l : List ℚ) (limit attachment : ℚ) : Option ℚ :=
  (el? l).bind fun e => (qdiv? e (exposure_value limit attachment)).map fun r => r * 10000

/-- Model of max_loss = layer_losses.max() (source line 58); np.max of an
empty array is an error, hence the bottom value on []. -/
def max_loss? (l : List ℚ) : WithBot ℚ := l.maximum

/-- Ascending sort, as np.sort produces. -/
def sorted_asc (l : List ℚ) : List ℚ := List.insertionSort (fun a b => a ≤ b) l

/-- Model of np.percentile's default linear interpolation at rank
h = (N - 1) * q / 100 over the ascending-sorted values: the value at
index floor(h), plus the fractional part times the gap to the next
value (the next value defaults to the current one at the top edge). -/
def interp_at (s : List ℚ) (h : ℚ) : ℚ :=
  s.getD (Int.toNat ⌊h⌋) 0 +
    (h - (Int.toNat ⌊h⌋ : ℚ)) *
      (s.getD (Int.toNat ⌊h⌋ + 1) (s.getD (Int.toNat ⌊h⌋) 0) - s.getD (Int.toNat ⌊h⌋) 0)

/-- Model of np.percentile(layer_losses, q) (source lines 60-61). -/
def percentile (l : List ℚ) (q : ℚ) : ℚ :=
  interp_at (sorted_asc l) (((l.length : ℚ) - 1) * q / 100)

/-- Model of p95 = np.percentile(layer_losses, 95). -/
def p95 (l : List ℚ) : ℚ := percentile l 95

/-- Model of p99 = np.percentile(layer_losses, 99). -/
def p99 (l : List ℚ) : ℚ := percentile l 99

/-! ## ExceedanceCurveBuilder (source lines 82-90) -/

/-- Model of sorted_losses = np.sort(layer_losses)[::-1]: ascending sort
then reversal, i.e. the losses in descending order. -/
def sorted_losses (l : List ℚ) : List ℚ := (sorted_asc l).reverse

/-- Model of return_periods = [1 / ((i + 1) / len(layer_losses)) for i in
range(len(layer_losses))] (source line 83). -/
def return_periods (n : ℕ) : List ℚ :=
  (List.range n).map fun i : ℕ => 1 / (((i : ℚ) + 1) / (n : ℚ))

/-- The EP curve pairs each return period with the loss of the same rank,
as the two columns of ep_curve_df (source lines 85-88). -/
def ep_curve (l : List ℚ) : List (ℚ × ℚ) :=
  (return_periods l.length).zip (sorted_losses l)

/-- Model of loss_1_in_200 = sorted_losses[int(len(sorted_losses) * (1 / 200))]
if len(sorted_losses) >= 200 else None (source line 84).  With exact
arithmetic, int(N * (1 / 200)) is the floor of N / 200. -/
def loss_1_in_200? (l : List ℚ) : Option ℚ :=
  if 200 ≤ (sorted_losses l).length then
    some ((sorted_losses l).getD (Int.toNat ⌊((sorted_losses l).length : ℚ) * (1 / 200)⌋) 0)
  else none

/-- Model of the display gate if loss_1_in_200: at source line 89: Python
truthiness, under which both None and a computed 0.0 are falsy and the
metric is not rendered. -/
def metric_displayed (v : Option ℚ) : Bool :=
  match v with
  | none => false
  | some x => decide (x ≠ 0)

/-! ## General helper lemmas -/

/-- The layer transform is the elementwise clamp of the claim formula. -/
theorem layer_losses_eq_map (losses : List ℚ) (deductible attachment limit : ℚ) :
    layer_losses losses deductible attachment limit =
      losses.map fun x => min (max (max (x - deductible) 0 - attachment) 0) limit := by
  simp [layer_losses, gross_losses, List.map_map, Function.comp]

theorem orderedInsert_replicate (n : ℕ) (x : ℚ) :
    List.orderedInsert (fun a b => a ≤ b) x (List.replicate n x) = List.replicate (n + 1) x := by
  cases n with
  | zero => rfl
  | succ m => simp [List.replicate_succ, List.orderedInsert]

theorem insertionSort_replicate (n : ℕ) (x : ℚ) :
    List.insertionSort (fun a b => a ≤ b) (List.replicate n x) = List.replicate n x := by
  induction n with
  | zero => rfl
  | succ m ih =>
    rw [List.replicate_succ, List.insertionSort, ih, orderedInsert_replicate]
    rw [List.replicate_succ]

theorem sorted_losses_replicate (n : ℕ) (x : ℚ) :
    sorted_losses (List.replicate n x) = List.replicate n x := by
  simp [sorted_losses, sorted_asc, insertionSort_replicate, List.reverse_replicate]

theorem sorted_asc_sorted (l : List ℚ) : (sorted_asc l).Sorted (fun a b => a ≤ b) :=
  List.sorted_insertionSort _ l

theorem sorted_asc_perm (l : List ℚ) : (sorted_asc l).Perm l :=
  List.perm_insertionSort _ l

theorem sorted_asc_length (l : List ℚ) : (sorted_asc l).length = l.length :=
  (sorted_asc_perm l).length_eq

theorem sorted_asc_ne_nil (l : List ℚ) (hne : l ≠ []) : sorted_asc l ≠ [] := by
  intro h
  apply hne
  have := sorted_asc_length l
  rw [h] at this
  exact List.length_eq_zero.mp this.symm

theorem sorted_getD_le_getD {s : List ℚ} (hs : s.Sorted (fun a b => a ≤ b)) {i j : ℕ}
    (hij : i ≤ j) (hj : j < s.length) : s.getD i 0 ≤ s.getD j 0 := by
  have hi : i < s.length := lt_of_le_of_lt hij hj
  rw [List.getD_eq_getElem _ _ hi, List.getD_eq_getElem _ _ hj]
  have := List.Sorted.rel_get_of_le hs (a := ⟨i, hi⟩) (b := ⟨j, hj⟩) hij
  simpa using this

theorem getD_mem {s : List ℚ} {i : ℕ} (hi : i < s.length) : s.getD i 0 ∈ s := by
  rw [List.getD_eq_getElem _ _ hi]
  exact List.getElem_mem hi

theorem sorted_le_getLast {s : List ℚ} (hs : s.Sorted (fun a b => a ≤ b)) {x : ℚ}
    (hx : x ∈ s) (hne : s ≠ []) : x ≤ s.getLast hne := by
  obtain ⟨i, hi⟩ := List.get_of_mem hx
  rw [List.getLast_eq_getElem]
  have hpos : 0 < s.length := List.length_pos.mpr hne
  have hlt : (i : ℕ) ≤ s.length - 1 := Nat.le_sub_one_of_lt i.isLt
  have := List.Sorted.rel_get_of_le hs
    (a := i) (b := ⟨s.length - 1, by omega⟩) hlt
  rw [hi] at this
  simpa using this

theorem sorted_head_le {s : List ℚ} (hs : s.Sorted (fun a b => a ≤ b)) {x : ℚ}
    (hx : x ∈ s) (hne : s ≠ []) : s.head hne ≤ x := by
  obtain ⟨i, hi⟩ := List.get_of_mem hx
  rw [List.head_eq_getElem]
  have := List.Sorted.rel_get_of_le hs
    (a := ⟨0, List.length_pos.mpr hne⟩) (b := i) (Nat.zero_le _)
  rw [hi] at this
  simpa using this

/-- The maximum of a non-empty sample is the last element of its
ascending sort. -/
theorem maximum_eq_sorted_getLast (l : List ℚ) (hne : l ≠ []) :
    l.maximum = some ((sorted_asc l).getLast (sorted_asc_ne_nil l hne)) := by
  apply List.maximum_eq_coe_iff.mpr
  constructor
  · exact (sorted_asc_perm l).mem_iff.mp (List.getLast_mem _)
  · intro a ha
    exact sorted_le_getLast (sorted_asc_sorted l) ((sorted_asc_perm l).mem_iff.mpr ha) _

/-- The minimum of a non-empty sample is the first element of its
ascending sort. -/
theorem minimum_eq_sorted_head (l : List ℚ) (hne : l ≠ []) :
    l.minimum = some ((sorted_asc l).head (sorted_asc_ne_nil l hne)) := by
  apply List.minimum_eq_coe_iff.mpr
  constructor
  · exact (sorted_asc_perm l).mem_iff.mp (List.head_mem _)
  · intro a ha
    exact sorted_head_le (sorted_asc_sorted l) ((sorted_asc_perm l).mem_iff.mpr ha) _

theorem sorted_losses_length (l : List ℚ) : (sorted_losses l).length = l.length := by
  rw [sorted_losses, List.length_reverse, sorted_asc_length]

/-- The descending sort starts with the maximum of the sample. -/
theorem sorted_losses_head? (l : List ℚ) (hne : l ≠ []) :
    ∃ m, l.maximum = some m ∧ (sorted_losses l).head? = some m := by
  refine ⟨(sorted_asc l).getLast (sorted_asc_ne_nil l hne),
    maximum_eq_sorted_getLast l hne, ?_⟩
  rw [sorted_losses, List.head?_reverse]
  exact List.getLast?_eq_getLast _ _

/-- The descending sort ends with the minimum of the sample. -/
theorem sorted_losses_getLast? (l : List ℚ) (hne : l ≠ []) :
    ∃ m, l.minimum = some m ∧ (sorted_losses l).getLast? = some m := by
  refine ⟨(sorted_asc l).head (sorted_asc_ne_nil l hne),
    minimum_eq_sorted_head l hne, ?_⟩
  rw [sorted_losses, List.getLast?_reverse]
  exact List.head?_eq_head _

theorem zip_head?_eq {α β : Type} {xs : List α} {ys : List β} {x : α} {y : β}
    (hx : xs.head? = some x) (hy : ys.head? = some y) :
    (xs.zip ys).head? = some (x, y) := by
  cases xs with
  | nil => cases hx
  | cons a xs =>
    cases ys with
    | nil => cases hy
    | cons b ys =>
      simp only [List.head?_cons, Option.some.injEq] at hx hy
      subst hx
      subst hy
      rfl

theorem zip_getLast?_eq {α β : Type} :
    ∀ (xs : List α) (ys : List β), xs.length = ys.length → ∀ {x : α} {y : β},
      xs.getLast? = some x → ys.getLast? = some y →
      (xs.zip ys).getLast? = some (x, y)
  | [], _, _, _, _, hx, _ => by cases hx
  | _ :: _, [], hlen, _, _, _, _ => by cases hlen
  | [a], b :: ys, hlen, x, y, hx, hy => by
    cases ys with
    | nil =>
      simp only [List.getLast?_singleton, Option.some.injEq] at hx hy
      subst hx
      subst hy
      rfl
    | cons b2 ys2 => simp at hlen
  | a :: a2 :: xs2, b :: ys, hlen, x, y, hx, hy => by
    cases ys with
    | nil => cases hlen
    | cons b2 ys2 =>
      have hlen' : (a2 :: xs2).length = (b2 :: ys2).length := by
        simpa using hlen
      rw [List.getLast?_cons_cons] at hx
      rw [List.getLast?_cons_cons] at hy
      have ih := zip_getLast?_eq (a2 :: xs2) (b2 :: ys2) hlen' hx hy
      calc ((a :: a2 :: xs2).zip (b :: b2 :: ys2)).getLast?
          = ((a, b) :: (a2 :: xs2).zip (b2 :: ys2)).getLast? := rfl
        _ = ((a2 :: xs2).zip (b2 :: ys2)).getLast? := List.getLast?_cons_cons
        _ = some (x, y) := ih

theorem return_periods_length (n : ℕ) : (return_periods n).length = n := by
  simp [return_periods]

theorem return_periods_head? (n : ℕ) (hn : 0 < n) :
    (return_periods n).head? = some (n : ℚ) := by
  obtain ⟨m, rfl⟩ := Nat.exists_eq_succ_of_ne_zero (Nat.pos_iff_ne_zero.mp hn)
  rw [return_periods, List.range_succ_eq_map]
  simp only [List.map_cons, List.head?_cons, Option.some.injEq]
  rw [Nat.cast_zero, zero_add, one_div_one_div]

theorem return_periods_getLast? (n : ℕ) (hn : 0 < n) :
    (return_periods n).getLast? = some 1 := by
  obtain ⟨m, rfl⟩ := Nat.exists_eq_succ_of_ne_zero (Nat.pos_iff_ne_zero.mp hn)
  rw [return_periods, List.range_succ, List.map_append, List.map_singleton,
    List.getLast?_concat]
  have hm : ((m : ℚ) + 1) ≠ 0 := by positivity
  push_cast
  rw [div_self hm]
  norm_num

theorem return_periods_strict_anti (n : ℕ) :
    (return_periods n).Pairwise (fun a b => b < a) := by
  rw [return_periods, List.pairwise_map]
  refine (List.pairwise_lt_range n).imp_of_mem ?_
  intro i j hi hj hij
  have hjn : j < n := List.mem_range.mp hj
  have hn : (0:ℚ) < (n : ℚ) := by
    have : 0 < n := Nat.lt_of_le_of_lt (Nat.zero_le i) (Nat.lt_of_lt_of_le hij hjn.le)
    exact_mod_cast this
  rw [one_div_div, one_div_div]
  apply div_lt_div_of_pos_left hn
  · positivity
  · have : (i:ℚ) < (j:ℚ) := by exact_mod_cast hij
    linarith

theorem toNat_floor_le {h : ℚ} (h0 : 0 ≤ h) : ((⌊h⌋.toNat : ℕ) : ℚ) ≤ h := by
  have hcast : (((⌊h⌋.toNat : ℕ) : ℤ) : ℚ) = ((⌊h⌋ : ℤ) : ℚ) := by
    rw [Int.toNat_of_nonneg (Int.floor_nonneg.mpr h0)]
  calc ((⌊h⌋.toNat : ℕ) : ℚ) = (((⌊h⌋.toNat : ℕ) : ℤ) : ℚ) := by push_cast; ring
    _ = ((⌊h⌋ : ℤ) : ℚ) := hcast
    _ ≤ h := Int.floor_le h

theorem lt_toNat_floor_add_one {h : ℚ} (h0 : 0 ≤ h) :
    h < ((⌊h⌋.toNat : ℕ) : ℚ) + 1 := by
  have hcast : (((⌊h⌋.toNat : ℕ) : ℤ) : ℚ) = ((⌊h⌋ : ℤ) : ℚ) := by
    rw [Int.toNat_of_nonneg (Int.floor_nonneg.mpr h0)]
  calc h < ((⌊h⌋ : ℤ) : ℚ) + 1 := Int.lt_floor_add_one h
    _ = ((⌊h⌋.toNat : ℕ) : ℚ) + 1 := by rw [← hcast]; push_cast; ring

/-- In a sorted list the linear-interpolation upper neighbour (which
defaults to the current value at the top edge) is at least the current
value. -/
theorem getD_next_ge {s : List ℚ} (hs : s.Sorted (fun a b => a ≤ b)) (k : ℕ)
    (hk : k < s.length) : s.getD k 0 ≤ s.getD (k + 1) (s.getD k 0) := by
  by_cases hk1 : k + 1 < s.length
  · have h := sorted_getD_le_getD hs (Nat.le_succ k) hk1
    rw [List.getD_eq_getElem _ _ hk1] at h
    rw [List.getD_eq_getElem _ _ hk1]
    exact h
  · rw [List.getD_eq_default _ _ (not_lt.mp hk1)]

theorem interp_at_ge_lo {s : List ℚ} (hs : s.Sorted (fun a b => a ≤ b)) {h : ℚ}
    (h0 : 0 ≤ h) (hk : ⌊h⌋.toNat < s.length) :
    s.getD ⌊h⌋.toNat 0 ≤ interp_at s h := by
  rw [interp_at]
  have h1 := toNat_floor_le h0
  have h2 := getD_next_ge hs ⌊h⌋.toNat hk
  have h3 := mul_nonneg (sub_nonneg.mpr h1) (sub_nonneg.mpr h2)
  linarith

theorem interp_at_le_hi {s : List ℚ} (hs : s.Sorted (fun a b => a ≤ b)) {h : ℚ}
    (h0 : 0 ≤ h) (hk : ⌊h⌋.toNat < s.length) :
    interp_at s h ≤ s.getD (⌊h⌋.toNat + 1) (s.getD ⌊h⌋.toNat 0) := by
  rw [interp_at]
  have h1 := lt_toNat_floor_add_one h0
  have h2 := getD_next_ge hs ⌊h⌋.toNat hk
  have hd1 : h - ((⌊h⌋.toNat : ℕ) : ℚ) ≤ 1 := by linarith
  have h3 := mul_le_mul_of_nonneg_right hd1 (sub_nonneg.mpr h2)
  linarith

/-- Linear interpolation over a sorted list is monotone in the rank. -/
theorem interp_at_mono {s : List ℚ} (hs : s.Sorted (fun a b => a ≤ b)) {h1 h2 : ℚ}
    (h0 : 0 ≤ h1) (h12 : h1 ≤ h2) (hk2 : ⌊h2⌋.toNat < s.length) :
    interp_at s h1 ≤ interp_at s h2 := by
  have h02 : 0 ≤ h2 := le_trans h0 h12
  have hkk : ⌊h1⌋.toNat ≤ ⌊h2⌋.toNat := Int.toNat_le_toNat (Int.floor_le_floor h12)
  have hk1 : ⌊h1⌋.toNat < s.length := lt_of_le_of_lt hkk hk2
  rcases eq_or_lt_of_le hkk with heq | hlt
  · rw [interp_at, interp_at, ← heq]
    have hgap := getD_next_ge hs ⌊h1⌋.toNat hk1
    have hmul := mul_le_mul_of_nonneg_right
      (sub_le_sub_right h12 ((⌊h1⌋.toNat : ℕ) : ℚ)) (sub_nonneg.mpr hgap)
    linarith
  · have hk1n : ⌊h1⌋.toNat + 1 < s.length := lt_of_le_of_lt (Nat.succ_le_of_lt hlt) hk2
    have s1 := interp_at_le_hi hs h0 hk1
    have e1 : s.getD (⌊h1⌋.toNat + 1) (s.getD ⌊h1⌋.toNat 0) = s.getD (⌊h1⌋.toNat + 1) 0 := by
      rw [List.getD_eq_getElem _ _ hk1n, List.getD_eq_getElem _ _ hk1n]
    have s2 := sorted_getD_le_getD hs (Nat.succ_le_of_lt hlt) hk2
    have s3 := interp_at_ge_lo hs h02 hk2
    rw [e1] at s1
    linarith

/-- Linear interpolation over a sorted list never exceeds an upper bound
of its elements. -/
theorem interp_at_le_of_ub {s : List ℚ} (hs : s.Sorted (fun a b => a ≤ b)) {h : ℚ}
    (h0 : 0 ≤ h) (hk : ⌊h⌋.toNat < s.length) {m : ℚ} (hm : ∀ x ∈ s, x ≤ m) :
    interp_at s h ≤ m := by
  have s1 := interp_at_le_hi hs h0 hk
  by_cases hk1 : ⌊h⌋.toNat + 1 < s.length
  · have e1 : s.getD (⌊h⌋.toNat + 1) (s.getD ⌊h⌋.toNat 0) = s.getD (⌊h⌋.toNat + 1) 0 := by
      rw [List.getD_eq_getElem _ _ hk1, List.getD_eq_getElem _ _ hk1]
    rw [e1] at s1
    exact le_trans s1 (hm _ (getD_mem hk1))
  · rw [List.getD_eq_default _ _ (not_lt.mp hk1)] at s1
    exact le_trans s1 (hm _ (getD_mem hk))

/-- For 0 ≤ q ≤ 100 the interpolation rank (N - 1) * q / 100 stays
inside the sorted list. -/
theorem percentile_floor_lt {l : List ℚ} (hne : l ≠ []) {q : ℚ}
    (h0 : 0 ≤ q) (h100 : q ≤ 100) :
    ⌊((l.length : ℚ) - 1) * q / 100⌋.toNat < (sorted_asc l).length := by
  have hn : 0 < l.length := List.length_pos.mpr hne
  have hn1 : (0:ℚ) ≤ (l.length : ℚ) - 1 := by
    have : (1:ℚ) ≤ (l.length : ℚ) := by exact_mod_cast hn
    linarith
  have hq1 : q / 100 ≤ 1 := by linarith
  have hle : ((l.length : ℚ) - 1) * q / 100 ≤ (l.length : ℚ) - 1 := by
    rw [mul_div_assoc]
    exact mul_le_of_le_one_right hn1 hq1
  have hfl : ⌊((l.length : ℚ) - 1)⌋ = (l.length : ℤ) - 1 := by
    rw [show ((l.length : ℚ) - 1) = (((l.length : ℤ) - 1 : ℤ) : ℚ) by push_cast; ring,
      Int.floor_intCast]
  have h2 : ⌊((l.length : ℚ) - 1) * q / 100⌋ ≤ (l.length : ℤ) - 1 := by
    rw [← hfl]
    exact Int.floor_le_floor hle
  have h3 := Int.toNat_le_toNat h2
  rw [sorted_asc_length]
  omega

theorem percentile_rank_nonneg {l : List ℚ} (hne : l ≠ []) {q : ℚ} (h0 : 0 ≤ q) :
    0 ≤ ((l.length : ℚ) - 1) * q / 100 := by
  have hn : 0 < l.length := List.length_pos.mpr hne
  have hn1 : (0:ℚ) ≤ (l.length : ℚ) - 1 := by
    have : (1:ℚ) ≤ (l.length : ℚ) := by exact_mod_cast hn
    linarith
  exact div_nonneg (mul_nonneg hn1 h0) (by norm_num)

/-- The interpolated percentile is monotone in the percentage. -/
theorem percentile_mono (l : List ℚ) (hne : l ≠ []) {q1 q2 : ℚ}
    (h0 : 0 ≤ q1) (h12 : q1 ≤ q2) (h100 : q2 ≤ 100) :
    percentile l q1 ≤ percentile l q2 := by
  rw [percentile, percentile]
  have hn : 0 < l.length := List.length_pos.mpr hne
  have hn1 : (0:ℚ) ≤ (l.length : ℚ) - 1 := by
    have : (1:ℚ) ≤ (l.length : ℚ) := by exact_mod_cast hn
    linarith
  apply interp_at_mono (sorted_asc_sorted l)
  · exact percentile_rank_nonneg hne h0
  · have := mul_le_mul_of_nonneg_left h12 hn1
    linarith
  · exact percentile_floor_lt hne (le_trans h0 h12) h100

/-- The interpolated percentile never exceeds the maximum. -/
theorem percentile_le_maximum (l : List ℚ) (hne : l ≠ []) {q : ℚ}
    (h0 : 0 ≤ q) (h100 : q ≤ 100) {m : ℚ} (hm : l.maximum = some m) :
    percentile l q ≤ m := by
  rw [percentile]
  apply interp_at_le_of_ub (sorted_asc_sorted l)
  · exact percentile_rank_nonneg hne h0
  · exact percentile_floor_lt hne h0 h100
  · intro x hx
    exact List.le_maximum_of_mem ((sorted_asc_perm l).mem_iff.mp hx) hm

/-! ## Claims -/

/-- C1: for every loss sample and non-negative TreatyTerms, the layer
transform computes each element as
clamp(max(raw_loss - deductible, 0) - attachment, 0, limit), and every
element of the resulting LayerLoss sequence lies between 0 and limit. -/
theorem c1_layer_invariant (losses : List ℚ) (deductible attachment limit : ℚ)
    (hd : 0 ≤ deductible) (ha : 0 ≤ attachment) (hlim : 0 ≤ limit) :
    (∀ i, i < losses.length →
      (layer_losses losses deductible attachment limit).getD i 0 =
        min (max (max (losses.getD i 0 - deductible) 0 - attachment) 0) limit) ∧
    ∀ y ∈ layer_losses losses deductible attachment limit, 0 ≤ y ∧ y ≤ limit := by
  constructor
  · intro i hi
    rw [layer_losses_eq_map]
    have hi' : i < (losses.map fun x =>
        min (max (max (x - deductible) 0 - attachment) 0) limit).length := by
      simpa using hi
    rw [List.getD_eq_getElem _ _ hi', List.getElem_map, List.getD_eq_getElem _ _ hi]
  · intro y hy
    rw [layer_losses_eq_map] at hy
    obtain ⟨x, _, rfl⟩ := List.mem_map.mp hy
    exact ⟨le_min (le_max_right _ 0) hlim, min_le_right _ _⟩

/-- C1 witness: the spec's concrete scenario at element 3: raw loss
60,000,000 with deductible 0, attachment 20,000,000, limit 50,000,000
follows the clamp formula (yielding 40,000,000), and that element lies
within [0, limit]. -/
theorem c1_witness :
    (layer_losses [0, 10000000, 30000000, 60000000] 0 20000000 50000000).getD 3 0 =
      min (max (max (([(0:ℚ), 10000000, 30000000, 60000000].getD 3 0) - 0) 0
        - 20000000) 0) 50000000 ∧
    (0:ℚ) ≤ 40000000 ∧ (40000000:ℚ) ≤ 50000000 := by
  have h := c1_layer_invariant [0, 10000000, 30000000, 60000000] 0 20000000 50000000
    (by norm_num) (by norm_num) (by norm_num)
  refine ⟨h.1 3 (by norm_num), ?_⟩
  apply h.2 40000000
  rw [layer_losses_eq_map]
  norm_num

/-- C2: for every non-empty LayerLoss sequence of length N the EP curve
has N points, its return periods are strictly decreasing in rank, the
first point pairs the maximum return period N with the largest loss, the
last point pairs return period 1 with the smallest loss, and for N = 1
the curve is the single point (1, loss). -/
theorem c2_ep_curve (l : List ℚ) (hne : l ≠ []) :
    (ep_curve l).length = l.length ∧
    ((ep_curve l).map Prod.fst).Pairwise (fun a b => b < a) ∧
    (∃ m, l.maximum = some m ∧ (ep_curve l).head? = some ((l.length : ℚ), m)) ∧
    (∃ m, l.minimum = some m ∧ (ep_curve l).getLast? = some (1, m)) ∧
    ∀ x : ℚ, l = [x] → ep_curve l = [(1, x)] := by
  have hn : 0 < l.length := List.length_pos.mpr hne
  have hlen : (return_periods l.length).length = (sorted_losses l).length := by
    rw [return_periods_length, sorted_losses_length]
  refine ⟨?_, ?_, ?_, ?_, ?_⟩
  · rw [ep_curve, List.length_zip, return_periods_length, sorted_losses_length, min_self]
  · rw [ep_curve, List.map_fst_zip _ _ (le_of_eq hlen)]
    exact return_periods_strict_anti l.length
  · obtain ⟨m, hm, hhead⟩ := sorted_losses_head? l hne
    exact ⟨m, hm, zip_head?_eq (return_periods_head? l.length hn) hhead⟩
  · obtain ⟨m, hm, hlast⟩ := sorted_losses_getLast? l hne
    exact ⟨m, hm, zip_getLast?_eq _ _ hlen (return_periods_getLast? l.length hn) hlast⟩
  · intro x hx
    subst hx
    have hs : sorted_losses [x] = [x] := by
      simp [sorted_losses, sorted_asc, List.insertionSort]
    rw [ep_curve, hs]
    have hr : return_periods 1 = [1] := by
      rw [return_periods, show List.range 1 = [0] from rfl]
      norm_num
    rw [List.length_singleton, hr]
    rfl

/-- C2 witness: the spec's concrete N = 1 scenario, a single loss of
5,000,000: the EP curve is the single point (1, 5000000). -/
theorem c2_witness : ep_curve [(5000000:ℚ)] = [(1, 5000000)] :=
  (c2_ep_curve [5000000] (by simp)).2.2.2.2 5000000 rfl

/-- C3: the code keeps the 1-in-200 loss as an Option that is populated
exactly when N is at least 200 (value at descending rank floor(N/200)),
but the display gate at line 89 uses Python truthiness, so a computed
value of 0.0 is rendered exactly like the unavailable None state — the
claim's requirement that a computed zero render differently from the
unavailable state fails.  Failing input: 200 layer losses all equal to
0. -/
theorem c3_zero_renders_as_unavailable :
    loss_1_in_200? (List.replicate 200 (0:ℚ)) = some 0 ∧
    loss_1_in_200? (List.replicate 199 (0:ℚ)) = none ∧
    metric_displayed (loss_1_in_200? (List.replicate 200 (0:ℚ))) =
      metric_displayed (loss_1_in_200? (List.replicate 199 (0:ℚ))) := by
  have h200 : loss_1_in_200? (List.replicate 200 (0:ℚ)) = some 0 := by
    rw [loss_1_in_200?, sorted_losses_replicate]
    norm_num
  have h199 : loss_1_in_200? (List.replicate 199 (0:ℚ)) = none := by
    rw [loss_1_in_200?, sorted_losses_replicate]
    norm_num
  refine ⟨h200, h199, ?_⟩
  rw [h200, h199]
  simp [metric_displayed]

/-- C4: the code has no zero-length guard: on an empty loss sample the
metrics stage still runs and its divisions by N = 0 produce non-finite
values (modelled as none) instead of an InsufficientDataError raised
before the metrics stage. -/
theorem c4_empty_metrics_undefined :
    el? ([] : List ℚ) = none ∧ payout_probability? ([] : List ℚ) = none ∧
      std_dev_sq? ([] : List ℚ) = none := by
  refine ⟨?_, ?_, ?_⟩ <;> simp [el?, payout_probability?, std_dev_sq?, qdiv?]

/-- C6 counterexample: on the layer losses [0, 2] the code's std_dev is
the population value (square 1), not the sample (N-1 denominator) value
the claim asserts (square 2); since both standard deviations are
non-negative, their squares differing refutes the claim. -/
theorem c6_counterexample :
    std_dev_sq? [0, 2] = some 1 ∧ spec_sample_std_dev_sq? [0, 2] = some 2 ∧
      std_dev_sq? [0, 2] ≠ spec_sample_std_dev_sq? [0, 2] := by
  norm_num [std_dev_sq?, spec_sample_std_dev_sq?, el?, qdiv?]

/-- C6 amended: the reported std_dev is the population standard deviation
(N denominator, numpy ddof=0); it relates to the spec's recommended
sample estimator by sample = population * N / (N - 1) (stated here on the
squares, multiplied out), and for N = 1 the reported std_dev is 0. -/
theorem c6_amended (l : List ℚ) (hlen : 2 ≤ l.length) :
    (∃ s2 t2, std_dev_sq? l = some s2 ∧ spec_sample_std_dev_sq? l = some t2 ∧
      t2 * ((l.length : ℚ) - 1) = s2 * (l.length : ℚ)) ∧
    ∀ x : ℚ, std_dev_sq? [x] = some 0 := by
  have hn0 : ((l.length : ℚ)) ≠ 0 := by
    have : (2:ℚ) ≤ (l.length : ℚ) := by exact_mod_cast hlen
    linarith
  have hn1 : ((l.length : ℚ)) - 1 ≠ 0 := by
    have : (2:ℚ) ≤ (l.length : ℚ) := by exact_mod_cast hlen
    linarith
  have hel : el? l = some (l.sum / (l.length : ℚ)) := by
    simp [el?, qdiv?, hn0]
  have h1 : std_dev_sq? l =
      some ((l.map fun x => (x - l.sum / (l.length : ℚ)) ^ 2).sum / (l.length : ℚ)) := by
    simp [std_dev_sq?, hel, qdiv?, hn0]
  have h2 : spec_sample_std_dev_sq? l =
      some ((l.map fun x => (x - l.sum / (l.length : ℚ)) ^ 2).sum / ((l.length : ℚ) - 1)) := by
    simp [spec_sample_std_dev_sq?, hel, qdiv?, hn1]
  refine ⟨⟨_, _, h1, h2, ?_⟩, ?_⟩
  · rw [div_mul_cancel₀ _ hn1, div_mul_cancel₀ _ hn0]
  · intro x
    norm_num [std_dev_sq?, el?, qdiv?]

/-- C6 amended witness: the amended theorem applied at the concrete
layer losses [0, 2]; its N = 1 clause evaluated at the single loss 1. -/
theorem c6_amended_witness : std_dev_sq? [(1:ℚ)] = some 0 :=
  (c6_amended [0, 2] (by norm_num)).2 1

/-- C7 counterexample: a first-column cell that is a non-numeric string
is not dropped by dropna (only missing cells are), and handing the
retained column to the numeric layer arithmetic fails — contradicting
the claim that every unparsable cell is silently dropped with the
remaining rows still used and never an uncaught crash in a later
stage. -/
theorem c7_counterexample :
    dropna [Cell.non_numeric "abc"] = [Cell.non_numeric "abc"] ∧
      as_numeric_array? (dropna [Cell.non_numeric "abc"]) = none := by
  constructor
  · rfl
  · rfl

/-- C7 amended: a whole-file parse failure is caught and surfaced as a
user-visible error with no partial result; a parsed file keeps exactly
the non-missing first-column cells (missing and empty cells are silently
dropped); but a retained non-numeric string cell makes the downstream
numeric arithmetic fail uncaught rather than being dropped. -/
theorem c7_amended (rows : List Cell) :
    parse_file? none = Except.error "Failed to process file" ∧
    parse_file? (some rows) = Except.ok (dropna rows) ∧
    (∀ c ∈ dropna rows, c ≠ Cell.missing) ∧
    (∀ c ∈ rows, c ≠ Cell.missing → c ∈ dropna rows) ∧
    ((∃ s, Cell.non_numeric s ∈ dropna rows) → as_numeric_array? (dropna rows) = none) := by
  refine ⟨rfl, rfl, ?_, ?_, ?_⟩
  · intro c hc
    have := (List.mem_filter.mp hc).2
    cases c with
    | missing => simp [is_missing] at this
    | num q => exact fun h => by cases h
    | non_numeric s => exact fun h => by cases h
  · intro c hc hne
    refine List.mem_filter.mpr ⟨hc, ?_⟩
    cases c with
    | missing => exact absurd rfl hne
    | num q => rfl
    | non_numeric s => rfl
  · rintro ⟨s, hs⟩
    rw [as_numeric_array?]
    rw [if_neg]
    intro hall
    have := List.all_eq_true.mp hall _ hs
    simp [cell_num?] at this

/-- C7 amended witness: the amended theorem applied to the concrete rows
[num 5, missing, non_numeric "x"]: the retained non-numeric cell makes
the downstream numeric conversion fail. -/
theorem c7_amended_witness :
    as_numeric_array? (dropna [Cell.num 5, Cell.missing, Cell.non_numeric "x"]) = none :=
  (c7_amended [Cell.num 5, Cell.missing, Cell.non_numeric "x"]).2.2.2.2
    ⟨"x", by simp [dropna, is_missing]⟩

/-- One clamped layer value is monotone when the deductible and the
attachment shrink and the limit grows. -/
theorem layer_point_mono (x : ℚ) {d d' a a' lim lim' : ℚ}
    (hd : d' ≤ d) (ha : a' ≤ a) (hlim : lim ≤ lim') :
    min (max (max (x - d) 0 - a) 0) lim ≤ min (max (max (x - d') 0 - a') 0) lim' := by
  refine min_le_min ?_ hlim
  refine max_le_max ?_ le_rfl
  refine sub_le_sub ?_ ha
  exact max_le_max (sub_le_sub_left hd x) le_rfl

/-- The layer sequence has the length of the raw loss sample. -/
theorem layer_losses_length (losses : List ℚ) (d a lim : ℚ) :
    (layer_losses losses d a lim).length = losses.length := by
  simp [layer_losses, gross_losses]

/-- Elementwise comparison of two layer sequences over the same sample,
at every index (out-of-range indices both default to 0). -/
theorem layer_losses_getD_mono (losses : List ℚ) {d d' a a' lim lim' : ℚ}
    (hd : d' ≤ d) (ha : a' ≤ a) (hlim : lim ≤ lim') (i : ℕ) :
    (layer_losses losses d a lim).getD i 0 ≤ (layer_losses losses d' a' lim').getD i 0 := by
  rw [layer_losses_eq_map, layer_losses_eq_map]
  by_cases hi : i < losses.length
  · have hi1 : i < (losses.map fun x =>
        min (max (max (x - d) 0 - a) 0) lim).length := by simpa using hi
    have hi2 : i < (losses.map fun x =>
        min (max (max (x - d') 0 - a') 0) lim').length := by simpa using hi
    rw [List.getD_eq_getElem _ _ hi1, List.getD_eq_getElem _ _ hi2,
      List.getElem_map, List.getElem_map]
    exact layer_point_mono _ hd ha hlim
  · have hlen : losses.length ≤ i := not_lt.mp hi
    rw [List.getD_eq_default _ _ (by simpa using hlen), List.getD_eq_default _ _ (by simpa using hlen)]

/-- C5: for every loss sample and treaty terms, raising the deductible
never increases any individual layer loss, raising the attachment never
increases any individual layer loss, and raising the limit never
decreases the expected loss EL. -/
theorem c5_monotonicity (losses : List ℚ) (d d' a a' lim lim' : ℚ)
    (hd : d ≤ d') (ha : a ≤ a') (hlim : lim ≤ lim') (hne : losses ≠ []) :
    (∀ i, (layer_losses losses d' a lim).getD i 0 ≤ (layer_losses losses d a lim).getD i 0) ∧
    (∀ i, (layer_losses losses d a' lim).getD i 0 ≤ (layer_losses losses d a lim).getD i 0) ∧
    ∃ e e', el? (layer_losses losses d a lim) = some e ∧
      el? (layer_losses losses d a lim') = some e' ∧ e ≤ e' := by
  refine ⟨fun i => layer_losses_getD_mono losses hd le_rfl le_rfl i,
    fun i => layer_losses_getD_mono losses le_rfl ha le_rfl i, ?_⟩
  have hlen : (0:ℚ) < ((losses.length : ℕ) : ℚ) := by
    have := List.length_pos.mpr hne
    exact_mod_cast this
  have hlen0 : ((losses.length : ℕ) : ℚ) ≠ 0 := ne_of_gt hlen
  have hsum : (layer_losses losses d a lim).sum ≤ (layer_losses losses d a lim').sum := by
    rw [layer_losses_eq_map, layer_losses_eq_map]
    exact List.sum_le_sum fun x _ => layer_point_mono x le_rfl le_rfl hlim
  refine ⟨(layer_losses losses d a lim).sum / losses.length,
    (layer_losses losses d a lim').sum / losses.length, ?_, ?_, ?_⟩
  · simp [el?, qdiv?, layer_losses_length, hlen0]
  · simp [el?, qdiv?, layer_losses_length, hlen0]
  · exact (div_le_div_iff_of_pos_right hlen).mpr hsum

/-- C5 witness: the theorem at the spec's concrete sample with the
deductible raised from 0 to 100,000, compared at index 0. -/
theorem c5_witness :
    (layer_losses [0, 10000000, 30000000, 60000000] 100000 20000000 50000000).getD 0 0 ≤
      (layer_losses [0, 10000000, 30000000, 60000000] 0 20000000 50000000).getD 0 0 :=
  (c5_monotonicity [0, 10000000, 30000000, 60000000] 0 100000 20000000 20000000
    50000000 50000000 (by norm_num) le_rfl le_rfl (by simp)).1 0

/-- C8: the coefficient of variation equals std_dev / EL (stated on the
squares) when EL is nonzero and is the undefined nan value when EL = 0;
el_ratio equals EL / limit * 100 for a nonzero limit and is a non-finite
value (not a crash) when limit = 0; in both zero-denominator cases the
other metrics of the report are still computed. -/
theorem c8_zero_denominators (l : List ℚ) (limit : ℚ) (hne : l ≠ []) :
    (∀ e, el? l = some e → e ≠ 0 →
      ∃ s2, std_dev_sq? l = some s2 ∧ cv_sq? l = some (s2 / e ^ 2)) ∧
    (el? l = some 0 → cv_sq? l = none) ∧
    (∀ e, el? l = some e → limit ≠ 0 → el_ratio? l limit = some (e / limit * 100)) ∧
    el_ratio? l 0 = none ∧
    (∃ p, payout_probability? l = some p) ∧
    ∃ m, max_loss? l = some m := by
  have hlen : ((l.length : ℕ) : ℚ) ≠ 0 := by
    have := List.length_pos.mpr hne
    positivity
  refine ⟨?_, ?_, ?_, ?_, ?_, ?_⟩
  · intro e he hne0
    refine ⟨(l.map fun x => (x - e) ^ 2).sum / (l.length : ℚ), ?_, ?_⟩
    · simp [std_dev_sq?, he, qdiv?, hlen]
    · simp [cv_sq?, he, hne0, std_dev_sq?, qdiv?, hlen]
  · intro he
    simp [cv_sq?, he]
  · intro e he hlim
    simp [el_ratio?, he, qdiv?, hlim]
  · cases he : el? l with
    | none => simp [el_ratio?, he]
    | some e => simp [el_ratio?, he, qdiv?]
  · exact ⟨((l.countP fun x => decide (0 < x) : ℕ) : ℚ) / (l.length : ℚ),
      by simp [payout_probability?, qdiv?, hlen]⟩
  · obtain ⟨m, hm⟩ := WithBot.ne_bot_iff_exists.mp (List.maximum_ne_bot_of_ne_nil hne)
    exact ⟨m, hm.symm⟩

/-- C8 witness: the theorem at the concrete layer losses [0, 2]: a zero
limit makes el_ratio undefined. -/
theorem c8_witness : el_ratio? [(0:ℚ), 2] 0 = none :=
  (c8_zero_denominators [0, 2] 37 (by simp)).2.2.2.1

/-- C10: with limit = 0 and attachment = 0 the exposure value is 0 and
the unguarded loss_cost division EL / exposure_value * 10000 divides by
zero, yielding a non-finite value (numpy warns and continues, nothing is
raised) for every loss sequence. -/
theorem c10_loss_cost_div_zero (l : List ℚ) :
    exposure_value 0 0 = 0 ∧ loss_cost? l 0 0 = none := by
  refine ⟨by norm_num [exposure_value], ?_⟩
  cases h : el? l with
  | none => simp [loss_cost?, h]
  | some e => simp [loss_cost?, h, qdiv?, exposure_value]

/-- C10 witness: the theorem evaluated at the concrete loss sequence
[5]. -/
theorem c10_witness :
    exposure_value 0 0 = 0 ∧ loss_cost? [(5:ℚ)] 0 0 = none :=
  c10_loss_cost_div_zero [5]

/-- C9: for every non-empty LayerLoss sequence the reported statistics
satisfy EL less-or-equal max_loss and p95 less-or-equal p99
less-or-equal max_loss. -/
theorem c9_statistics_ordering (l : List ℚ) (hne : l ≠ []) :
    ∃ m e, max_loss? l = some m ∧ el? l = some e ∧ e ≤ m ∧
      p95 l ≤ p99 l ∧ p99 l ≤ m := by
  obtain ⟨m, hm⟩ := WithBot.ne_bot_iff_exists.mp (List.maximum_ne_bot_of_ne_nil hne)
  have hm' : l.maximum = some m := hm.symm
  have hn : 0 < l.length := List.length_pos.mpr hne
  have hlen0 : ((l.length : ℕ) : ℚ) ≠ 0 := by positivity
  have hel : el? l = some (l.sum / (l.length : ℚ)) := by
    simp [el?, qdiv?, hlen0]
  refine ⟨m, l.sum / (l.length : ℚ), hm', hel, ?_, ?_, ?_⟩
  · have hsum : l.sum ≤ l.length • m :=
      List.sum_le_card_nsmul l m fun x hx => List.le_maximum_of_mem hx hm'
    rw [nsmul_eq_mul] at hsum
    rw [div_le_iff₀ (by positivity : (0:ℚ) < ((l.length : ℕ) : ℚ))]
    linarith
  · exact percentile_mono l hne (by norm_num) (by norm_num) (by norm_num)
  · exact percentile_le_maximum l hne (by norm_num) (by norm_num) hm'

/-- C9 witness: the theorem applied to the concrete layer losses [0, 2],
from which the percentile ordering p95 less-or-equal p99 is extracted. -/
theorem c9_witness : p95 [(0:ℚ), 2] ≤ p99 [(0:ℚ), 2] := by
  obtain ⟨m, e, _, _, _, h59, _⟩ := c9_statistics_ordering [0, 2] (by simp)
  exact h59

end TubbySnowPlow
